import Mathlib

/-!
# Verification of the GSEApy enrichment module (`gseapy/gsea.py`)

This file embeds the Python source of `gseapy/gsea.py` (the `GSEA` and
`Prerank` classes: ranking-metric computation, class-label loading,
expression-data loading, constructor normalization) in Lean and proves or
refutes the claims of the natural-language specification against it.

Modelling conventions:
* Expression values and metric scores are rationals (`ℚ`); the claims under
  study are formula-level and control-flow-level, so IEEE `sqrt` and `log2`
  are modelled as uninterpreted function parameters `sq lg : ℚ → ℚ` that are
  threaded through both the code embedding and the spec formulas. Note that
  rational division by zero yields `0` where IEEE floats yield `±inf`/`NaN`;
  no claim settled here depends on the value produced by a division by zero,
  only on whether an error is raised.
* A pandas DataFrame of expressions (genes × samples) becomes a
  `List (String × List ℚ)` (gene name, row of values), with the sample →
  group assignment a `List String` of labels parallel to the columns
  (the `cls_dict = dict(zip(df.columns, cls_vec))` of the source).
* `raise` becomes `Except.error`; missing values (`NaN` cells) in the loader
  become `Option ℚ` with `none` for `NaN`.
* The permutation / enrichment-score engines invoked by `GSEA.run` and
  `Prerank.run` live in the compiled Rust extension `gseapy.gse`
  (`gsea_rs`, `prerank_rs`, ...), whose code is not part of the Python
  sources; those parts are modelled from the spec (§4.2/§4.3) and are
  marked as such below.
-/

namespace GSEApy

/-! ## Per-group sample statistics (pandas `groupby(axis=1).mean() / .std()`) -/

/-- The values of one gene row that fall in group `g`: the entries whose
column label (from `zip(df.columns, cls_vec)`) equals `g`. This is the
column selection performed by `df.groupby(by=classes, axis=1)` in
`GSEA.calculate_metric` (gsea.py lines 179–183). -/
def groupVals (classes : List String) (g : String) (row : List ℚ) : List ℚ :=
  ((classes.zip row).filter (fun p => p.1 == g)).map Prod.snd

/-- Arithmetic mean, as computed by pandas `groupby(...).mean()`. -/
def pmean (xs : List ℚ) : ℚ := xs.sum / (xs.length : ℚ)

/-- The `ddof = 1` sample variance: the quantity under the square root of
pandas `groupby(...).std()`. For a single observation the rational division
by `n − 1 = 0` yields `0`; pandas produces `NaN` there, which contributes
nothing to the `skipna` sums this module later takes, so `0` is the
faithful rational stand-in for every use below. -/
def sampleVar (xs : List ℚ) : ℚ :=
  ((xs.map (fun x => (x - pmean xs) ^ 2)).sum) / ((xs.length : ℚ) - 1)

/-- pandas `groupby(...).std()`: the square root of the `ddof = 1` sample
variance, with IEEE `sqrt` modelled by the uninterpreted parameter `sq`. -/
def sampleStd (sq : ℚ → ℚ) (xs : List ℚ) : ℚ := sq (sampleVar xs)

/-! ## `GSEA.calculate_metric` (gsea.py lines 122–210) -/

/-- The method names recognized by the dispatch chain of
`GSEA.calculate_metric` (gsea.py lines 188–201), including the `s2n` /
`abs_s2n` aliases; every other name reaches the
`raise LookupError` branch (lines 202–204). -/
def calcMethodNames : List String :=
  ["signal_to_noise", "s2n", "abs_signal_to_noise", "abs_s2n", "t_test",
   "ratio_of_classes", "diff_of_classes", "log2_ratio_of_classes"]

/-- The score `GSEA.calculate_metric` computes for one gene row: the
per-gene entry of the vectorized series `ser` of gsea.py lines 188–201.
`df_mean[pos]` / `df_std[pos]` become the group mean / std over the columns
labelled `pos`; `n_pos` / `n_neg` are the label counts from
`Counter(classes.values())` (lines 184–186). The unsupported-method branch
is handled by `metricSeries` below; this function returns `0` there (that
branch is unreachable under `metricSeries`'s guard). -/
def metricScore (sq lg : ℚ → ℚ) (classes : List String) (pos neg : String)
    (method : String) (row : List ℚ) : ℚ :=
  let meanPos := pmean (groupVals classes pos row)
  let meanNeg := pmean (groupVals classes neg row)
  let stdPos := sampleStd sq (groupVals classes pos row)
  let stdNeg := sampleStd sq (groupVals classes neg row)
  let nPos : ℚ := ((classes.filter (fun c => c == pos)).length : ℚ)
  let nNeg : ℚ := ((classes.filter (fun c => c == neg)).length : ℚ)
  if method = "signal_to_noise" ∨ method = "s2n" then
    (meanPos - meanNeg) / (stdPos + stdNeg)
  else if method = "abs_signal_to_noise" ∨ method = "abs_s2n" then
    |(meanPos - meanNeg) / (stdPos + stdNeg)|
  else if method = "t_test" then
    (meanPos - meanNeg) / sq (stdPos ^ 2 / nPos + stdNeg ^ 2 / nNeg)
  else if method = "ratio_of_classes" then
    meanPos / meanNeg
  else if method = "diff_of_classes" then
    meanPos - meanNeg
  else if method = "log2_ratio_of_classes" then
    lg (meanPos / meanNeg)
  else 0

/-- The series `ser` of `GSEA.calculate_metric` (gsea.py lines 188–204) in
input gene order, or the `raise LookupError` of lines 202–204 for an
unrecognized method name. The source computes the series with vectorized
pandas expressions; the embedding computes the same value gene by gene. -/
def metricSeries (sq lg : ℚ → ℚ) (df : List (String × List ℚ))
    (method : String) (pos neg : String) (classes : List String) :
    Except String (List (String × ℚ)) :=
  if method ∈ calcMethodNames then
    Except.ok (df.map (fun g => (g.1, metricScore sq lg classes pos neg method g.2)))
  else
    Except.error ("Input method: " ++ method ++ " is not supported")

/-- Stable insertion step: `a` is placed before the first element `b` with
`lt b a = false`, so elements comparing equal to `a` that are already in the
list stay in front of elements inserted later, never behind. -/
def insSorted (lt : α → α → Bool) (a : α) : List α → List α
  | [] => [a]
  | b :: bs => if lt b a then b :: insSorted lt a bs else a :: b :: bs

/-- Stable ascending sort by the strict comparison `lt` (insertion sort).
This is the deterministic model used for Python's stable `sorted` and for
`np.argsort`: elements with equal keys keep their input order. -/
def stableSort (lt : α → α → Bool) (xs : List α) : List α :=
  xs.foldr (insSorted lt) []

/-- `ser.values.argsort()` of gsea.py line 205: the list of input positions
in ascending order of value. NumPy's default `quicksort` leaves the relative
order of tied values unspecified; the embedding uses the stable ascending
argsort (ties keep their input positions in increasing order) as the
deterministic model of that call. -/
def argsort (vals : List ℚ) : List Nat :=
  stableSort (fun i j => decide (vals.getD i 0 < vals.getD j 0))
    (List.range vals.length)

/-- `GSEA.calculate_metric` (gsea.py lines 122–210): compute the metric
series, argsort it ascending (`ser_ind = ser.values.argsort().tolist()`),
reorder the series (`ser = ser.iloc[ser_ind]`), and return `(ser_ind, ser)`
unchanged when `ascending` else both reversed
(`ser_ind[::-1], ser[::-1]`, lines 207–210). -/
def calculate_metric (sq lg : ℚ → ℚ) (df : List (String × List ℚ))
    (method : String) (pos neg : String) (classes : List String)
    (ascending : Bool) : Except String (List Nat × List (String × ℚ)) :=
  (metricSeries sq lg df method pos neg classes).map (fun ser =>
    let serInd := argsort (ser.map Prod.snd)
    let sorted := serInd.map (fun i => ser.getD i ("", 0))
    if ascending then (serInd, sorted) else (serInd.reverse, sorted.reverse))

/-! ## The spec's §4.1 formula table, written from the spec's words
(used only to state the refinement claim C1). -/

/-- Spec §4.1: `signal_to_noise = (mean_pos − mean_neg) / (std_pos + std_neg)`. -/
def specSignalToNoise (meanP meanN stdP stdN : ℚ) : ℚ :=
  (meanP - meanN) / (stdP + stdN)

/-- Spec §4.1: `abs_signal_to_noise = |signal_to_noise|`. -/
def specAbsSignalToNoise (meanP meanN stdP stdN : ℚ) : ℚ :=
  |specSignalToNoise meanP meanN stdP stdN|

/-- Spec §4.1: `t_test = (mean_pos − mean_neg) / sqrt(std_pos²/n_pos + std_neg²/n_neg)`. -/
def specTtest (sq : ℚ → ℚ) (meanP meanN stdP stdN nP nN : ℚ) : ℚ :=
  (meanP - meanN) / sq (stdP ^ 2 / nP + stdN ^ 2 / nN)

/-- Spec §4.1: `ratio_of_classes = mean_pos / mean_neg`. -/
def specRatioOfClasses (meanP meanN : ℚ) : ℚ := meanP / meanN

/-- Spec §4.1: `diff_of_classes = mean_pos − mean_neg`. -/
def specDiffOfClasses (meanP meanN : ℚ) : ℚ := meanP - meanN

/-- Spec §4.1: `log2_ratio_of_classes = log2(mean_pos / mean_neg)`. -/
def specLog2RatioOfClasses (lg : ℚ → ℚ) (meanP meanN : ℚ) : ℚ :=
  lg (meanP / meanN)

/-- C1: for every two-group expression frame and each recognized metric
name, `calculate_metric`'s per-gene score is exactly the spec's §4.1
formula evaluated at the per-group sample mean, `ddof = 1` sample standard
deviation and group sample counts. -/
theorem calculate_metric_matches_spec_formulas (sq lg : ℚ → ℚ)
    (df : List (String × List ℚ)) (pos neg : String) (classes : List String) :
    (metricSeries sq lg df "signal_to_noise" pos neg classes =
      Except.ok (df.map (fun g => (g.1,
        specSignalToNoise (pmean (groupVals classes pos g.2))
          (pmean (groupVals classes neg g.2))
          (sampleStd sq (groupVals classes pos g.2))
          (sampleStd sq (groupVals classes neg g.2))))))
    ∧ (metricSeries sq lg df "abs_signal_to_noise" pos neg classes =
      Except.ok (df.map (fun g => (g.1,
        specAbsSignalToNoise (pmean (groupVals classes pos g.2))
          (pmean (groupVals classes neg g.2))
          (sampleStd sq (groupVals classes pos g.2))
          (sampleStd sq (groupVals classes neg g.2))))))
    ∧ (metricSeries sq lg df "t_test" pos neg classes =
      Except.ok (df.map (fun g => (g.1,
        specTtest sq (pmean (groupVals classes pos g.2))
          (pmean (groupVals classes neg g.2))
          (sampleStd sq (groupVals classes pos g.2))
          (sampleStd sq (groupVals classes neg g.2))
          ((classes.filter (fun c => c == pos)).length : ℚ)
          ((classes.filter (fun c => c == neg)).length : ℚ)))))
    ∧ (metricSeries sq lg df "ratio_of_classes" pos neg classes =
      Except.ok (df.map (fun g => (g.1,
        specRatioOfClasses (pmean (groupVals classes pos g.2))
          (pmean (groupVals classes neg g.2))))))
    ∧ (metricSeries sq lg df "diff_of_classes" pos neg classes =
      Except.ok (df.map (fun g => (g.1,
        specDiffOfClasses (pmean (groupVals classes pos g.2))
          (pmean (groupVals classes neg g.2))))))
    ∧ (metricSeries sq lg df "log2_ratio_of_classes" pos neg classes =
      Except.ok (df.map (fun g => (g.1,
        specLog2RatioOfClasses lg (pmean (groupVals classes pos g.2))
          (pmean (groupVals classes neg g.2)))))) := by
  refine ⟨?_, ?_, ?_, ?_, ?_, ?_⟩ <;>
    simp [metricSeries, calcMethodNames, metricScore, specSignalToNoise,
      specAbsSignalToNoise, specTtest, specRatioOfClasses, specDiffOfClasses,
      specLog2RatioOfClasses]

/-! ## Sorting properties of the ranking (claim C2) -/

theorem mem_insSorted (lt : α → α → Bool) (a c : α) (l : List α) :
    c ∈ insSorted lt a l ↔ c = a ∨ c ∈ l := by
  induction l with
  | nil => simp [insSorted]
  | cons b bs ih =>
    show c ∈ (if lt b a then b :: insSorted lt a bs else a :: b :: bs) ↔ _
    by_cases h : lt b a = true
    · rw [if_pos h]
      simp only [List.mem_cons, ih]
      tauto
    · rw [if_neg h]
      simp only [List.mem_cons]

theorem mem_stableSort (lt : α → α → Bool) (c : α) (xs : List α) :
    c ∈ stableSort lt xs ↔ c ∈ xs := by
  induction xs with
  | nil => simp [stableSort]
  | cons x l ih =>
    show c ∈ insSorted lt x (stableSort lt l) ↔ _
    rw [mem_insSorted]
    simp [ih]

/-- The strict "value, then input position" order on positions of `vals`:
the relation that holds between consecutive entries of a stable ascending
argsort. -/
def rankLex (vals : List ℚ) (i j : Nat) : Prop :=
  vals.getD i 0 < vals.getD j 0 ∨ (vals.getD i 0 = vals.getD j 0 ∧ i < j)

theorem pairwise_insSorted_rankLex (vals : List ℚ) (i : Nat) (acc : List Nat)
    (hgt : ∀ j ∈ acc, i < j) (hp : acc.Pairwise (rankLex vals)) :
    (insSorted (fun i j => decide (vals.getD i 0 < vals.getD j 0)) i acc).Pairwise
      (rankLex vals) := by
  induction acc with
  | nil => simp [insSorted]
  | cons b bs ih =>
    rw [List.pairwise_cons] at hp
    obtain ⟨hb, hbs⟩ := hp
    rw [show insSorted (fun i j => decide (vals.getD i 0 < vals.getD j 0)) i (b :: bs)
        = if vals.getD b 0 < vals.getD i 0 then
            b :: insSorted (fun i j => decide (vals.getD i 0 < vals.getD j 0)) i bs
          else i :: b :: bs from by simp [insSorted]]
    by_cases h : vals.getD b 0 < vals.getD i 0
    · rw [if_pos h, List.pairwise_cons]
      refine ⟨?_, ih (fun j hj => hgt j (List.mem_cons_of_mem _ hj)) hbs⟩
      intro c hc
      rw [mem_insSorted] at hc
      rcases hc with rfl | hc
      · exact Or.inl h
      · exact hb c hc
    · rw [if_neg h, List.pairwise_cons]
      constructor
      · intro c hc
        rw [List.mem_cons] at hc
        rcases hc with rfl | hc
        · rcases lt_or_le (vals.getD i 0) (vals.getD c 0) with hlt | hle
          · exact Or.inl hlt
          · exact Or.inr ⟨le_antisymm (not_lt.mp h) hle, hgt c (by simp)⟩
        · rcases hb c hc with hbc | ⟨hbc, _⟩
          · rcases lt_or_le (vals.getD i 0) (vals.getD c 0) with hlt | hle
            · exact Or.inl hlt
            · exact absurd (lt_of_le_of_lt (le_trans hle (not_lt.mp h)) hbc)
                (lt_irrefl _)
          · rcases lt_or_eq_of_le (le_trans (not_lt.mp h) (le_of_eq hbc)) with hlt | heq
            · exact Or.inl hlt
            · exact Or.inr ⟨heq, hgt c (List.mem_cons_of_mem _ hc)⟩
      · rw [List.pairwise_cons]
        exact ⟨hb, hbs⟩

theorem pairwise_stableSort_rankLex (vals : List ℚ) (l : List Nat)
    (hl : l.Pairwise (· < ·)) :
    (stableSort (fun i j => decide (vals.getD i 0 < vals.getD j 0)) l).Pairwise
      (rankLex vals) := by
  induction l with
  | nil => simp [stableSort]
  | cons i tl ih =>
    rw [List.pairwise_cons] at hl
    obtain ⟨hi, htl⟩ := hl
    show (insSorted _ i (stableSort _ tl)).Pairwise _
    refine pairwise_insSorted_rankLex vals i _ ?_ (ih htl)
    intro j hj
    exact hi j ((mem_stableSort _ _ _).mp hj)

/-- The stable ascending argsort is sorted by value with ties in increasing
input-position order. -/
theorem argsort_pairwise (vals : List ℚ) :
    (argsort vals).Pairwise (rankLex vals) :=
  pairwise_stableSort_rankLex vals (List.range vals.length)
    (List.pairwise_lt_range _)

theorem getD_map_snd (ser : List (String × ℚ)) (i : Nat) :
    (ser.map Prod.snd).getD i 0 = (ser.getD i ("", 0)).2 := by
  induction ser generalizing i with
  | nil => simp
  | cons a l ih =>
    cases i with
    | zero => simp
    | succ n => simpa using ih n

/-- C2 (amended): for every input on which `calculate_metric` returns a
ranking, (a) the ascending ranking is sorted ascending by score with tied
genes kept in their original input order (under the stable model of
`np.argsort`); (b) the descending ranking is exactly the reverse of the
ascending one, so its scores are sorted descending but tied genes appear in
reversed input order. -/
theorem calculate_metric_sort_order (sq lg : ℚ → ℚ)
    (df : List (String × List ℚ)) (method : String) (pos neg : String)
    (classes : List String) (indA indD : List Nat)
    (serA serD : List (String × ℚ))
    (hA : calculate_metric sq lg df method pos neg classes true =
      Except.ok (indA, serA))
    (hD : calculate_metric sq lg df method pos neg classes false =
      Except.ok (indD, serD)) :
    indA.Pairwise (rankLex (df.map
      (fun g => metricScore sq lg classes pos neg method g.2)))
    ∧ (serA.map Prod.snd).Pairwise (· ≤ ·)
    ∧ indD = indA.reverse ∧ serD = serA.reverse
    ∧ (serD.map Prod.snd).Pairwise (· ≥ ·) := by
  by_cases hm : method ∈ calcMethodNames
  · have hser : metricSeries sq lg df method pos neg classes =
        Except.ok (df.map (fun g =>
          (g.1, metricScore sq lg classes pos neg method g.2))) := by
      simp [metricSeries, hm]
    set ser : List (String × ℚ) :=
      df.map (fun g => (g.1, metricScore sq lg classes pos neg method g.2)) with hserdef
    have hvals : ser.map Prod.snd =
        df.map (fun g => metricScore sq lg classes pos neg method g.2) := by
      simp [hserdef]
    simp only [calculate_metric, hser, Except.map, if_true, Bool.true_eq_false,
      if_false] at hA hD
    have hAi : indA = argsort (ser.map Prod.snd) := by
      have := congrArg Prod.fst (Except.ok.inj hA)
      simpa using this.symm
    have hAs : serA = (argsort (ser.map Prod.snd)).map
        (fun i => ser.getD i ("", 0)) := by
      have := congrArg Prod.snd (Except.ok.inj hA)
      simpa using this.symm
    have hDi : indD = (argsort (ser.map Prod.snd)).reverse := by
      have := congrArg Prod.fst (Except.ok.inj hD)
      simpa using this.symm
    have hDs : serD = ((argsort (ser.map Prod.snd)).map
        (fun i => ser.getD i ("", 0))).reverse := by
      have := congrArg Prod.snd (Except.ok.inj hD)
      simpa using this.symm
    have hpw : (argsort (ser.map Prod.snd)).Pairwise
        (rankLex (ser.map Prod.snd)) := argsort_pairwise _
    have hsorted : (serA.map Prod.snd).Pairwise (· ≤ ·) := by
      rw [hAs, List.map_map, List.pairwise_map]
      refine hpw.imp ?_
      intro i j hij
      show (ser.getD i ("", 0)).2 ≤ (ser.getD j ("", 0)).2
      rw [← getD_map_snd, ← getD_map_snd]
      rcases hij with h | ⟨h, _⟩
      · exact le_of_lt h
      · exact le_of_eq h
    refine ⟨?_, hsorted, ?_, ?_, ?_⟩
    · rw [hAi, ← hvals]
      exact hpw
    · rw [hDi, hAi]
    · rw [hDs, hAs]
    · rw [hDs, ← hAs, List.map_reverse, List.pairwise_reverse]
      exact hsorted
  · simp [calculate_metric, metricSeries, hm, Except.map] at hA

/-- C2 counterexample: two genes `g1`, `g2` with tied scores
(`diff_of_classes` = −1 for both). In the default descending direction the
returned ranking lists `g2` before `g1` — the reverse of their input order —
because gsea.py line 210 reverses the ascending argsort, so tied genes do
not keep their original input order in both sort directions. -/
theorem calculate_metric_descending_reverses_ties :
    calculate_metric id id [("g1", [1, 2]), ("g2", [1, 2])]
      "diff_of_classes" "p" "n" ["p", "n"] false =
      Except.ok ([1, 0], [("g2", -1), ("g1", -1)]) := by
  norm_num +decide [calculate_metric, metricSeries, calcMethodNames,
    metricScore, groupVals, pmean, argsort, stableSort, insSorted, Except.map,
    List.range_succ]

/-- Witness for `calculate_metric_sort_order` at a concrete input
(two genes with distinct `diff_of_classes` scores, both sort directions). -/
theorem calculate_metric_sort_order_witness :
    ([0, 1] : List Nat).Pairwise (rankLex ([("g1", [1, 3]), ("g2", [5, 1])].map
        (fun g => metricScore id id ["p", "n"] "p" "n" "diff_of_classes" g.2)))
    ∧ (([("g1", (-2 : ℚ)), ("g2", 4)].map Prod.snd).Pairwise (· ≤ ·))
    ∧ ([1, 0] : List Nat) = ([0, 1] : List Nat).reverse
    ∧ [("g2", (4 : ℚ)), ("g1", -2)] = [("g1", (-2 : ℚ)), ("g2", 4)].reverse
    ∧ (([("g2", (4 : ℚ)), ("g1", -2)].map Prod.snd).Pairwise (· ≥ ·)) :=
  calculate_metric_sort_order id id [("g1", [1, 3]), ("g2", [5, 1])]
    "diff_of_classes" "p" "n" ["p", "n"] [0, 1] [1, 0]
    [("g1", -2), ("g2", 4)] [("g2", 4), ("g1", -2)]
    (by norm_num +decide [calculate_metric, metricSeries, calcMethodNames,
      metricScore, groupVals, pmean, argsort, stableSort, insSorted,
      Except.map, List.range_succ])
    (by norm_num +decide [calculate_metric, metricSeries, calcMethodNames,
      metricScore, groupVals, pmean, argsort, stableSort, insSorted,
      Except.map, List.range_succ])

/-! ## Claim C4: no degeneracy check in the metric engine -/

/-- C4 (amended): `calculate_metric` performs no zero-variance check — for
every recognized metric name it returns a ranking (`Except.ok`), even when a
gene's group standard deviations sum to zero: the division by zero silently
produces a value (`±inf`/`NaN` in IEEE arithmetic, `0` in the rational
model) instead of raising. The only raising branch in the function is the
unsupported-method `LookupError` (gsea.py lines 202–204); zero-variance
genes are expected to have been dropped beforehand by `load_data`. -/
theorem calculate_metric_no_degenerate_check (sq lg : ℚ → ℚ)
    (df : List (String × List ℚ)) (method : String) (pos neg : String)
    (classes : List String) (ascending : Bool)
    (hm : method ∈ calcMethodNames) :
    (calculate_metric sq lg df method pos neg classes ascending).isOk = true := by
  cases ascending <;>
    simp [calculate_metric, metricSeries, hm, Except.map, Except.isOk, Except.toBool]

/-- Witness for `calculate_metric_no_degenerate_check`: a frame whose single
gene has zero variance in each group still yields a ranking. -/
theorem calculate_metric_no_degenerate_check_witness :
    "signal_to_noise" ∈ calcMethodNames
    ∧ (calculate_metric id id [("g", [1, 1, 1, 2, 2, 2])] "signal_to_noise"
        "a" "b" ["a", "a", "a", "b", "b", "b"] false).isOk = true :=
  ⟨by decide,
    calculate_metric_no_degenerate_check id id [("g", [1, 1, 1, 2, 2, 2])]
      "signal_to_noise" "a" "b" ["a", "a", "a", "b", "b", "b"] false
      (by decide)⟩

/-- C4 counterexample: the gene `g` is constant within each group (1,1,1 and
5,5,5), so both group sample standard deviations — and their sum — are zero,
and `signal_to_noise` divides by that zero sum; yet `calculate_metric`
returns a ranking (`isOk`) instead of failing with any `DegenerateInput`
error. (Instantiating the uninterpreted square root as `id` makes the stds
literally `id 0 = 0`.) -/
theorem calculate_metric_zero_std_silent :
    sampleStd id (groupVals ["a", "a", "a", "b", "b", "b"] "a"
        [1, 1, 1, 5, 5, 5])
      + sampleStd id (groupVals ["a", "a", "a", "b", "b", "b"] "b"
        [1, 1, 1, 5, 5, 5]) = 0
    ∧ (calculate_metric id id [("g", [1, 1, 1, 5, 5, 5])] "signal_to_noise"
        "a" "b" ["a", "a", "a", "b", "b", "b"] false).isOk = true := by
  constructor
  · norm_num +decide [sampleStd, sampleVar, groupVals, pmean]
  · norm_num +decide [calculate_metric, metricSeries, calcMethodNames,
      Except.map, Except.isOk, Except.toBool]

/-! ## Claim C6: unsupported metric names (`calculate_metric` and
`GSEA.run`'s dispatch, gsea.py lines 202–204 and 238–252) -/

/-- Python's `str.lower()` applied by `GSEA.run` (`m = self.method.lower()`,
gsea.py line 238), modelled characterwise. -/
def pyLower (s : String) : String := String.mk (s.data.map Char.toLower)

/-- The Rust-side metric enum `gseapy.gse.Metric` that `GSEA.run` dispatches
into (gsea.py lines 238–252). -/
inductive RsMetric
  | Signal2Noise
  | AbsSignal2Noise
  | Ttest
  | RatioOfClasses
  | DiffOfClasses
  | Log2RatioOfClasses
deriving DecidableEq

/-- The lowercased names `GSEA.run`'s dispatch chain accepts
(gsea.py lines 239–250). -/
def runMethodNames : List String :=
  ["signal_to_noise", "s2n", "abs_signal_to_noise", "abs_s2n", "t_test",
   "ratio_of_classes", "diff_of_classes", "log2_ratio_of_classes"]

/-- `GSEA.run`'s metric dispatch (gsea.py lines 238–252): lowercase the
configured method name and map it to the Rust `Metric` enum; the final
branch raises `Exception` ("input method not supported"). The second arm
repeats `"s2n"` exactly as in the source (dead there, since the first arm
already matched it). -/
def runDispatch (method : String) : Except String RsMetric :=
  let m := pyLower method
  if m = "signal_to_noise" ∨ m = "s2n" then Except.ok RsMetric.Signal2Noise
  else if m = "s2n" ∨ m = "abs_signal_to_noise" ∨ m = "abs_s2n" then
    Except.ok RsMetric.AbsSignal2Noise
  else if m = "t_test" then Except.ok RsMetric.Ttest
  else if m = "ratio_of_classes" then Except.ok RsMetric.RatioOfClasses
  else if m = "diff_of_classes" then Except.ok RsMetric.DiffOfClasses
  else if m = "log2_ratio_of_classes" then Except.ok RsMetric.Log2RatioOfClasses
  else Except.error ("Sorry, input method " ++ m ++ " is not supported")

/-- C6: a metric name outside the recognized set (the six metrics under
their accepted spellings) makes `calculate_metric` raise `LookupError`
rather than return a ranking, and makes `GSEA.run`'s dispatch raise at the
top of `run` (before any data loading or scoring), aborting the run as an
invalid configuration. -/
theorem unsupported_metric_errors (sq lg : ℚ → ℚ)
    (df : List (String × List ℚ)) (method : String) (pos neg : String)
    (classes : List String) (ascending : Bool)
    (hcalc : method ∉ calcMethodNames)
    (hrun : pyLower method ∉ runMethodNames) :
    (calculate_metric sq lg df method pos neg classes ascending).isOk = false
    ∧ (runDispatch method).isOk = false := by
  constructor
  · simp [calculate_metric, metricSeries, hcalc, Except.map, Except.isOk, Except.toBool]
  · simp only [runMethodNames, List.mem_cons, List.not_mem_nil, or_false,
      not_or] at hrun
    obtain ⟨h1, h2, h3, h4, h5, h6, h7, h8⟩ := hrun
    simp [runDispatch, h1, h2, h3, h4, h5, h6, h7, h8, Except.isOk, Except.toBool]

/-- Witness for `unsupported_metric_errors` at the unrecognized name
`"Pearson"`. -/
theorem unsupported_metric_errors_witness :
    "Pearson" ∉ calcMethodNames
    ∧ pyLower "Pearson" ∉ runMethodNames
    ∧ (calculate_metric id id [("g", [1, 2])] "Pearson" "a" "b" ["a", "b"]
        false).isOk = false
    ∧ (runDispatch "Pearson").isOk = false := by
  refine ⟨by decide, by decide, ?_⟩
  have h := unsupported_metric_errors id id [("g", [1, 2])] "Pearson" "a" "b"
    ["a", "b"] false (by decide) (by decide)
  exact ⟨h.1, h.2⟩

/-! ## `GSEA.load_classes` (gsea.py lines 212–233), dict branch -/

/-- Distinct elements in first-occurrence order (the key order of Python's
insertion-ordered `Counter`), with an accumulator of already-seen labels. -/
def firstOccurAux : List String → List String → List String
  | [], acc => acc.reverse
  | x :: xs, acc =>
    if x ∈ acc then firstOccurAux xs acc else firstOccurAux xs (x :: acc)

/-- The distinct labels of `labels` in first-occurrence order. -/
def distinctLabels (labels : List String) : List String := firstOccurAux labels []

/-- The number of samples carrying label `c`
(`Counter(self.classes.values())[c]`). -/
def countLabel (labels : List String) (c : String) : Nat :=
  (labels.filter (fun x => x == c)).length

/-- `Counter(self.classes.values())` (gsea.py line 218) as an association
list (label, count), keys in first-occurrence order. -/
def counterList (labels : List String) : List (String × Nat) :=
  (distinctLabels labels).map (fun c => (c, countLabel labels c))

/-- `GSEA.load_classes` (gsea.py lines 212–233), dict branch: count samples
per group label, iterate the groups sorted ascending by count
(`sorted(class_values.items(), key=lambda item: item[1])`, a stable sort)
raising on the first group with fewer than 3 samples, then take the first
two groups of the sorted order as `(pheno_pos, pheno_neg)` (`s[0]`, `s[1]`);
with fewer than two distinct labels `s[1]` raises an `IndexError`. The
non-dict branch delegates to the external `gsea_cls_parser`
(gseapy/parser.py, outside this module). -/
def load_classes_dict (classes : List (String × String)) :
    Except String (String × String) :=
  let labels := classes.map Prod.snd
  let s := stableSort (fun a b => decide (a.2 < b.2)) (counterList labels)
  match s.find? (fun p => decide (p.2 < 3)) with
  | some p => Except.error ("Number of " ++ p.1 ++ ": it must be >= 3!")
  | none =>
    match s with
    | a :: b :: _ => Except.ok (a.1, b.1)
    | _ => Except.error "IndexError: list index out of range"

theorem mem_firstOccurAux (x : String) (l acc : List String) :
    x ∈ firstOccurAux l acc ↔ x ∈ l ∨ x ∈ acc := by
  induction l generalizing acc with
  | nil => simp [firstOccurAux]
  | cons y ys ih =>
    show x ∈ (if y ∈ acc then firstOccurAux ys acc
        else firstOccurAux ys (y :: acc)) ↔ _
    by_cases h : y ∈ acc
    · rw [if_pos h, ih]
      simp only [List.mem_cons]
      constructor
      · tauto
      · rintro ((rfl | hx) | hx) <;> tauto
    · rw [if_neg h, ih]
      simp only [List.mem_cons]
      tauto

theorem mem_distinctLabels (x : String) (labels : List String) :
    x ∈ distinctLabels labels ↔ x ∈ labels := by
  rw [distinctLabels, mem_firstOccurAux]
  simp

theorem pairwise_insSorted_key {β : Type} [LinearOrder β] (key : α → β)
    (a : α) (l : List α) (hl : l.Pairwise (fun x y => key x ≤ key y)) :
    (insSorted (fun x y => decide (key x < key y)) a l).Pairwise
      (fun x y => key x ≤ key y) := by
  induction l with
  | nil => simp [insSorted]
  | cons b bs ih =>
    rw [List.pairwise_cons] at hl
    obtain ⟨hb, hbs⟩ := hl
    rw [show insSorted (fun x y => decide (key x < key y)) a (b :: bs)
        = if key b < key a then
            b :: insSorted (fun x y => decide (key x < key y)) a bs
          else a :: b :: bs from by simp [insSorted]]
    by_cases h : key b < key a
    · rw [if_pos h, List.pairwise_cons]
      refine ⟨?_, ih hbs⟩
      intro c hc
      rw [mem_insSorted] at hc
      rcases hc with rfl | hc
      · exact le_of_lt h
      · exact hb c hc
    · rw [if_neg h, List.pairwise_cons]
      refine ⟨?_, List.pairwise_cons.mpr ⟨hb, hbs⟩⟩
      intro c hc
      rw [List.mem_cons] at hc
      rcases hc with rfl | hc
      · exact not_lt.mp h
      · exact le_trans (not_lt.mp h) (hb c hc)

theorem pairwise_stableSort_key {β : Type} [LinearOrder β] (key : α → β)
    (xs : List α) :
    (stableSort (fun x y => decide (key x < key y)) xs).Pairwise
      (fun x y => key x ≤ key y) := by
  induction xs with
  | nil => simp [stableSort]
  | cons x l ih => exact pairwise_insSorted_key key x _ ih

/-- C5 (amended): in the dict branch of `load_classes`, any group with
fewer than 3 samples makes the call raise (abort) rather than return
phenotype labels — this happens during label parsing, before any data
loading or scoring in `GSEA.run`. -/
theorem load_classes_dict_small_group (classes : List (String × String))
    (c : String) (hc : c ∈ classes.map Prod.snd)
    (hsmall : countLabel (classes.map Prod.snd) c < 3) :
    (load_classes_dict classes).isOk = false := by
  have hmemc : (c, countLabel (classes.map Prod.snd) c)
      ∈ counterList (classes.map Prod.snd) :=
    List.mem_map.mpr ⟨c, (mem_distinctLabels _ _).mpr hc, rfl⟩
  have hmems : (c, countLabel (classes.map Prod.snd) c)
      ∈ stableSort (fun a b => decide (a.2 < b.2))
        (counterList (classes.map Prod.snd)) :=
    (mem_stableSort _ _ _).mpr hmemc
  have hfind : ((stableSort (fun a b => decide (a.2 < b.2))
      (counterList (classes.map Prod.snd))).find?
        (fun p => decide (p.2 < 3))).isSome := by
    rw [List.find?_isSome]
    exact ⟨_, hmems, by simpa using hsmall⟩
  simp only [load_classes_dict]
  cases hf : (stableSort (fun a b => decide (a.2 < b.2))
      (counterList (classes.map Prod.snd))).find? (fun p => decide (p.2 < 3)) with
  | none => rw [hf] at hfind; simp at hfind
  | some q => simp [Except.isOk, Except.toBool]

/-- Witness for `load_classes_dict_small_group`: group `"B"` has only two
samples, so `load_classes` raises. -/
theorem load_classes_dict_small_group_witness :
    "B" ∈ ([("s1", "A"), ("s2", "A"), ("s3", "A"), ("s4", "B"),
      ("s5", "B")].map Prod.snd)
    ∧ countLabel ([("s1", "A"), ("s2", "A"), ("s3", "A"), ("s4", "B"),
      ("s5", "B")].map Prod.snd) "B" < 3
    ∧ (load_classes_dict [("s1", "A"), ("s2", "A"), ("s3", "A"), ("s4", "B"),
      ("s5", "B")]).isOk = false :=
  ⟨by decide, by decide,
    load_classes_dict_small_group _ "B" (by decide) (by decide)⟩

/-- C5 counterexample: three distinct group labels, each with 3 samples.
The claim requires exactly two distinct group labels, but the dict branch
accepts this input without error, silently ignoring the third group. -/
theorem load_classes_dict_three_groups_accepted :
    load_classes_dict [("s1", "A"), ("s2", "A"), ("s3", "A"),
      ("s4", "B"), ("s5", "B"), ("s6", "B"),
      ("s7", "C"), ("s8", "C"), ("s9", "C")] = Except.ok ("A", "B") := rfl

/-- C9 (amended): when `load_classes` (dict branch) succeeds, the returned
`pheno_pos` is a group label of minimal sample count, and its count is at
most `pheno_neg`'s. (Ties between equal-count groups are broken by
first-occurrence order in the mapping — see
`load_classes_dict_tie_order_dependent` — so for equal group sizes the
choice depends on insertion order, not on size alone.) -/
theorem load_classes_dict_smallest_pos (classes : List (String × String))
    (p n : String) (h : load_classes_dict classes = Except.ok (p, n)) :
    countLabel (classes.map Prod.snd) p ≤ countLabel (classes.map Prod.snd) n
    ∧ ∀ c ∈ classes.map Prod.snd,
        countLabel (classes.map Prod.snd) p
          ≤ countLabel (classes.map Prod.snd) c := by
  simp only [load_classes_dict] at h
  set s := stableSort (fun a b => decide (a.2 < b.2))
    (counterList (classes.map Prod.snd)) with hs
  have hsorted : s.Pairwise (fun x y => x.2 ≤ y.2) :=
    pairwise_stableSort_key Prod.snd _
  have hcount : ∀ q ∈ s, q.2 = countLabel (classes.map Prod.snd) q.1 := by
    intro q hq
    have := (mem_stableSort _ _ _).mp (hs ▸ hq)
    obtain ⟨c, _, rfl⟩ := List.mem_map.mp this
    rfl
  cases hf : s.find? (fun q => decide (q.2 < 3)) with
  | some q => rw [hf] at h; simp at h
  | none =>
    rw [hf] at h
    match hmatch : s with
    | [] => rw [hmatch] at h; simp at h
    | [a] => rw [hmatch] at h; simp at h
    | a :: b :: rest =>
      rw [hmatch] at h
      simp only [Except.ok.injEq, Prod.mk.injEq] at h
      obtain ⟨rfl, rfl⟩ := h
      rw [hmatch] at hsorted hcount
      rw [List.pairwise_cons] at hsorted
      obtain ⟨ha, _⟩ := hsorted
      have hpa : a.2 = countLabel (classes.map Prod.snd) a.1 :=
        hcount a (by simp)
      have hpb : b.2 = countLabel (classes.map Prod.snd) b.1 :=
        hcount b (by simp)
      constructor
      · rw [← hpa, ← hpb]
        exact ha b (by simp)
      · intro c hcmem
        have hcs : (c, countLabel (classes.map Prod.snd) c)
            ∈ a :: b :: rest := by
          rw [← hmatch, hs]
          exact (mem_stableSort _ _ _).mpr
            (List.mem_map.mpr ⟨c, (mem_distinctLabels _ _).mpr hcmem, rfl⟩)
        rw [List.mem_cons] at hcs
        rcases hcs with hca | hcs
        · have hceq : countLabel (classes.map Prod.snd) c = a.2 :=
            congrArg Prod.snd hca
          rw [hceq, ← hpa]
        · rw [← hpa]
          exact ha _ hcs

/-- Witness for `load_classes_dict_smallest_pos`: group `"B"` (3 samples)
is smaller than `"A"` (4 samples), so it becomes `pheno_pos`. -/
theorem load_classes_dict_smallest_pos_witness :
    countLabel ([("s1", "A"), ("s2", "A"), ("s3", "A"), ("s4", "A"),
        ("s5", "B"), ("s6", "B"), ("s7", "B")].map Prod.snd) "B"
      ≤ countLabel ([("s1", "A"), ("s2", "A"), ("s3", "A"), ("s4", "A"),
        ("s5", "B"), ("s6", "B"), ("s7", "B")].map Prod.snd) "A"
    ∧ ∀ c ∈ ([("s1", "A"), ("s2", "A"), ("s3", "A"), ("s4", "A"),
        ("s5", "B"), ("s6", "B"), ("s7", "B")].map Prod.snd),
        countLabel ([("s1", "A"), ("s2", "A"), ("s3", "A"), ("s4", "A"),
          ("s5", "B"), ("s6", "B"), ("s7", "B")].map Prod.snd) "B"
          ≤ countLabel ([("s1", "A"), ("s2", "A"), ("s3", "A"), ("s4", "A"),
            ("s5", "B"), ("s6", "B"), ("s7", "B")].map Prod.snd) c :=
  load_classes_dict_smallest_pos [("s1", "A"), ("s2", "A"), ("s3", "A"),
    ("s4", "A"), ("s5", "B"), ("s6", "B"), ("s7", "B")] "B" "A" rfl

/-- C9 counterexample: two class mappings with identical group sizes
(3 and 3) but opposite insertion orders produce opposite phenotype
assignments, so which label becomes `pheno_pos` is not determined by group
size alone — with tied counts it is decided by label order. -/
theorem load_classes_dict_tie_order_dependent :
    load_classes_dict [("s1", "X"), ("s2", "X"), ("s3", "X"),
        ("s4", "Y"), ("s5", "Y"), ("s6", "Y")] = Except.ok ("X", "Y")
    ∧ load_classes_dict [("s1", "Y"), ("s2", "Y"), ("s3", "Y"),
        ("s4", "X"), ("s5", "X"), ("s6", "X")] = Except.ok ("Y", "X")
    ∧ countLabel ["X", "X", "X", "Y", "Y", "Y"] "X"
        = countLabel ["X", "X", "X", "Y", "Y", "Y"] "Y" := by
  refine ⟨rfl, rfl, by decide⟩

/-! ## `GSEA.load_data` (gsea.py lines 72–120) -/

/-- A raw row of the expression table before `set_index` (gsea.py line 101):
the gene-name cell of the first column (`none` models a `NaN` name) and the
expression cells (`none` models a `NaN` value). -/
abbrev RawRow := Option String × List (Option ℚ)

/-- Helper for `drop_duplicates`: keep each row whose gene-name cell was not
seen before. pandas `duplicated` treats two `NaN` names as duplicates of
each other, which `Option` equality models. -/
def dropDupAux : List RawRow → List (Option String) → List RawRow
  | [], _ => []
  | r :: rs, seen =>
    if r.1 ∈ seen then dropDupAux rs seen
    else r :: dropDupAux rs (r.1 :: seen)

/-- `exprs.drop_duplicates(subset=exprs.columns[0])` (gsea.py lines 90–95):
keep the first row for each gene-name value. The source only performs the
call when duplicates exist; when none exist the call is the identity, so the
unconditional form is equivalent. -/
def dropDuplicatesFirst (rows : List RawRow) : List RawRow := dropDupAux rows []

/-- `exprs.isnull().any().sum() > 0` (gsea.py line 96): does any cell — the
gene-name cell or an expression cell — hold `NaN`? -/
def anyNull (rows : List RawRow) : Bool :=
  rows.any (fun r => r.1.isNone || r.2.any Option.isNone)

/-- `exprs.dropna(how="all")` (gsea.py line 98): drop exactly the rows whose
every cell — gene-name cell included — is `NaN`. -/
def dropAllNA (rows : List RawRow) : List RawRow :=
  rows.filter (fun r => !(r.1.isNone && r.2.all Option.isNone))

/-- `exprs.fillna(0)` (gsea.py line 99): replace every `NaN` cell by `0`
(a `NaN` gene-name cell becomes the object `0`, modelled as the string
`"0"`). -/
def fillna0 (rows : List RawRow) : List RawRow :=
  rows.map (fun r => (some (r.1.getD "0"), r.2.map (fun v => some (v.getD 0))))

/-- gsea.py lines 90–99: duplicate-name removal followed by the guarded NaN
cleanup (`dropna(how="all")` then `fillna(0)`, executed only when some cell
is `NaN`). -/
def cleanRows (rows : List RawRow) : List RawRow :=
  let dd := dropDuplicatesFirst rows
  if anyNull dd then fillna0 (dropAllNA dd) else dd

/-- The numeric frame after `set_index` / `select_dtypes` (gsea.py
lines 101–103): gene name as index, rational expression values. By
`load_data_frame_no_nan` no cell of the cleaned frame is `none`, so the
`Option.getD` extractions never actually default. -/
def numericRows (rows : List RawRow) : List (String × List ℚ) :=
  (cleanRows rows).map (fun r => (r.1.getD "", r.2.map (fun v => v.getD 0)))

/-- gsea.py lines 106–107: when the class vector is one shorter than the
column count, the first (numeric description) column is dropped. The frame
is rectangular, so the per-row length test agrees with the frame-global
`df.shape[1]` test. -/
def dropDescCol (cls_vec : List String) (row : List ℚ) : List ℚ :=
  if row.length = cls_vec.length + 1 then row.drop 1 else row

/-- The gene-retention test of gsea.py line 117, `df_std.sum(axis=1) > 0`,
as a decidable predicate. Each group std is `√variance ≥ 0` (the NaN std of
a singleton group is skipped by pandas' `skipna` sum, matching the `0` the
rational `sampleVar` yields there), so the sum of stds is positive iff some
group's variance is nonzero — the form embedded here. -/
def stdSumPos (cls_vec : List String) (row : List ℚ) : Bool :=
  (distinctLabels cls_vec).any
    (fun g => sampleVar (groupVals cls_vec g row) != 0)

/-- `GSEA.load_data` (gsea.py lines 72–120): clean the frame (duplicate
names, NaN cells), select the numeric values, drop a numeric description
column when present, keep only the genes whose group stds sum to a positive
value (line 117: `df = df[df_std.sum(axis=1) > 0]`), and add `1e-08` to
every retained value (line 118: `df = df + 1e-08`). -/
def load_data (rows : List RawRow) (cls_vec : List String) :
    List (String × List ℚ) :=
  (((numericRows rows).map (fun r => (r.1, dropDescCol cls_vec r.2))).filter
      (fun r => stdSumPos cls_vec r.2)).map
    (fun r => (r.1, r.2.map (fun v => v + 1 / 100000000)))

/-- C10: every row of the frame produced by the cleanup stage of
`load_data` (the frame handed on to filtering and the epsilon shift) has a
present gene name and no `NaN` value: all-NA rows were dropped and every
remaining `NaN` was replaced by `0`. -/
theorem load_data_frame_no_nan (rows : List RawRow) :
    ∀ r ∈ cleanRows rows,
      r.1.isSome = true ∧ r.2.all Option.isSome = true := by
  intro r hr
  rw [cleanRows] at hr
  by_cases h : anyNull (dropDuplicatesFirst rows) = true
  · rw [if_pos h] at hr
    obtain ⟨q, _, rfl⟩ := List.mem_map.mp hr
    refine ⟨rfl, ?_⟩
    simp [List.all_eq_true]
  · rw [if_neg h] at hr
    have h2 : anyNull (dropDuplicatesFirst rows) = false := by simpa using h
    rw [anyNull, List.any_eq_false] at h2
    have h3 := h2 r hr
    have hn : r.1.isNone = false := by
      cases hni : r.1.isNone
      · rfl
      · rw [hni] at h3; simp at h3
    have hv : r.2.any Option.isNone = false := by
      cases hva : r.2.any Option.isNone
      · rfl
      · rw [hva] at h3; simp at h3
    constructor
    · cases hoption : r.1 with
      | none => rw [hoption] at hn; simp at hn
      | some _ => rfl
    · rw [List.all_eq_true]
      intro v hvmem
      rw [List.any_eq_false] at hv
      have hvf := hv v hvmem
      cases v with
      | none => simp at hvf
      | some _ => rfl


/-- Witness for `load_data_frame_no_nan`: a frame with one all-NA row
(dropped by `dropna(how="all")`) and one partially-NA row (zero-filled). -/
theorem load_data_frame_no_nan_witness :
    ((some "g1", [some (1 : ℚ), some 0]) : RawRow).1.isSome = true
    ∧ ((some "g1", [some (1 : ℚ), some 0]) : RawRow).2.all Option.isSome = true :=
  load_data_frame_no_nan [(some "g1", [some 1, none]), (none, [none, none])]
    (some "g1", [some 1, some 0])
    (by rw [show cleanRows [(some "g1", [some 1, none]), (none, [none, none])]
          = [((some "g1", [some (1 : ℚ), some 0]) : RawRow)] from rfl]
        exact List.mem_singleton_self _)

theorem sum_map_addConst (c : ℚ) (xs : List ℚ) :
    (xs.map (fun x => x + c)).sum = xs.sum + xs.length * c := by
  induction xs with
  | nil => simp
  | cons a l ih =>
    simp only [List.map_cons, List.sum_cons, List.length_cons, ih]
    push_cast
    ring

theorem pmean_shift (c : ℚ) (xs : List ℚ) (h : xs ≠ []) :
    pmean (xs.map (fun x => x + c)) = pmean xs + c := by
  have hn : (xs.length : ℚ) ≠ 0 :=
    Nat.cast_ne_zero.mpr (List.length_pos.mpr h).ne'
  rw [pmean, pmean, sum_map_addConst, List.length_map]
  field_simp
  ring

theorem sampleVar_shift (c : ℚ) (xs : List ℚ) :
    sampleVar (xs.map (fun x => x + c)) = sampleVar xs := by
  cases xs with
  | nil => rfl
  | cons a l =>
    have h : (a :: l) ≠ [] := by simp
    rw [sampleVar, sampleVar, pmean_shift c _ h, List.map_map, List.length_map]
    have hfun : ((fun x => (x - (pmean (a :: l) + c)) ^ 2) ∘ (fun x : ℚ => x + c))
        = fun x : ℚ => (x - pmean (a :: l)) ^ 2 := by
      funext x
      simp only [Function.comp]
      ring
    rw [hfun]

theorem groupVals_shift (cls : List String) (g : String) (c : ℚ)
    (row : List ℚ) :
    groupVals cls g (row.map (fun x => x + c))
      = (groupVals cls g row).map (fun x => x + c) := by
  rw [groupVals, groupVals, List.zip_map_right, List.filter_map,
    List.map_map, List.map_map]
  have hpred : ((fun p : String × ℚ => p.1 == g) ∘ Prod.map id (fun x => x + c))
      = fun p : String × ℚ => p.1 == g := by
    funext p
    cases p
    rfl
  have hsnd : ((Prod.snd : String × ℚ → ℚ) ∘ Prod.map id (fun x : ℚ => x + c))
      = ((fun x : ℚ => x + c) ∘ (Prod.snd : String × ℚ → ℚ)) := by
    funext p
    cases p
    rfl
  rw [hpred, hsnd]

theorem stdSumPos_shift (cls : List String) (c : ℚ) (row : List ℚ) :
    stdSumPos cls (row.map (fun x => x + c)) = stdSumPos cls row := by
  rw [stdSumPos, stdSumPos]
  congr 1
  funext g
  rw [groupVals_shift, sampleVar_shift]

/-- C7: every gene in the frame `load_data` hands to the ranking engine has
a positive group standard-deviation sum: genes whose group stds sum to zero
are removed by the line-117 filter, and the `1e-08` shift of line 118 adds
a constant to every value of a row, which changes no variance. -/
theorem load_data_positive_std (rows : List RawRow) (cls_vec : List String) :
    ∀ g ∈ load_data rows cls_vec, stdSumPos cls_vec g.2 = true := by
  intro g hg
  rw [load_data] at hg
  obtain ⟨r, hr, rfl⟩ := List.mem_map.mp hg
  have hfil := List.mem_filter.mp hr
  show stdSumPos cls_vec (r.2.map (fun v => v + 1 / 100000000)) = true
  rw [stdSumPos_shift]
  exact hfil.2

/-- Witness for `load_data_positive_std`: a one-gene frame whose group `"a"`
has nonzero variance, so the gene is retained (with the epsilon shift) and
still reports a positive group-std sum. -/
theorem load_data_positive_std_witness :
    stdSumPos ["a", "a", "b"]
      (("g1", [1 + 1 / 100000000, 3 + 1 / 100000000, 2 + 1 / 100000000])
        : String × List ℚ).2 = true :=
  load_data_positive_std [(some "g1", [some 1, some 3, some 2])] ["a", "a", "b"]
    ("g1", [1 + 1 / 100000000, 3 + 1 / 100000000, 2 + 1 / 100000000])
    (by
      have hev : load_data [(some "g1", [some 1, some 3, some 2])] ["a", "a", "b"]
          = [("g1", [1 + 1 / 100000000, 3 + 1 / 100000000, 2 + 1 / 100000000])] := by
        norm_num +decide [load_data, numericRows, cleanRows, dropDuplicatesFirst,
          dropDupAux, anyNull, dropDescCol, stdSumPos, distinctLabels,
          firstOccurAux, groupVals, sampleVar, pmean, bne_iff_ne]
      rw [hev]
      exact List.mem_singleton_self _)

/-! ## Claim C3: determinism of the permutation engine across thread counts

The permutation and enrichment-score engines invoked by `GSEA.run` and
`Prerank.run` live in the compiled Rust extension `gseapy.gse`
(`gsea_rs` / `prerank_rs` / `prerank2d_rs`), whose code is not among the
Python sources; the definitions of this section are modelled from the spec
(§4.2 Enrichment Score Engine, §4.3 Permutation Engine, §5 concurrency
model) and are the basis on which C3 is settled. -/

/-- Modelled from the spec (§4.3): a linear-congruential pseudo-random step
standing in for the engine's per-permutation random stream (the Rust engine
is not under the Python sources). -/
def lcgStep (s : Nat) : Nat := (s * 1664525 + 1013904223) % 2 ^ 32

/-- Modelled from the spec (§4.3): "derive a permutation-specific random
state from `seed` and `k` (not from global mutable state)". -/
def permState (seed k : Nat) : Nat :=
  (seed * 747796405 + k * 2891336453 + 1) % 2 ^ 32

/-- Remove and return the element at index `i` of a list. -/
def pickOut : List α → Nat → Option (α × List α)
  | [], _ => none
  | x :: xs, 0 => some (x, xs)
  | x :: xs, i + 1 => (pickOut xs i).map (fun q => (q.1, x :: q.2))

/-- Modelled from the spec (§4.3): a seeded Fisher–Yates-style shuffle
driven by the LCG stream; the fuel is the list length. -/
def shuffleAux : Nat → Nat → List α → List α
  | 0, _, xs => xs
  | fuel + 1, s, xs =>
    match pickOut xs (s % xs.length) with
    | none => []
    | some (x, rest) => x :: shuffleAux fuel (lcgStep s) rest

/-- Modelled from the spec (§4.3): shuffle a list with the random state `s`. -/
def shuffle (s : Nat) (xs : List α) : List α := shuffleAux xs.length s xs

/-- Modelled from the spec (§4.2): the running-sum increments of the
weighted KS statistic — a member gene at a position with score `v`
contributes `|v|^p / NR` (`NR` the sum of `|score|^p` over member genes), a
non-member contributes `−1/(L − |members|)`. The weight is modelled as a
natural exponent. -/
def esIncrements (ranking : List (String × ℚ)) (gset : List String)
    (p : Nat) : List ℚ :=
  let members := ranking.filter (fun r => r.1 ∈ gset)
  let nr := (members.map (fun r => |r.2| ^ p)).sum
  let denomMiss := (ranking.length : ℚ) - (members.length : ℚ)
  ranking.map (fun r =>
    if r.1 ∈ gset then |r.2| ^ p / nr else -(1 / denomMiss))

/-- Modelled from the spec (§4.2): the running enrichment profile `RES` —
the partial sums of the increments. -/
def resProfile (ranking : List (String × ℚ)) (gset : List String)
    (p : Nat) : List ℚ :=
  (List.scanl (fun a b => a + b) 0 (esIncrements ranking gset p)).tail

/-- Modelled from the spec (§4.2): `ES` is the signed running-sum value of
maximum absolute magnitude across the profile, ties broken by first
occurrence. -/
def esStat (ranking : List (String × ℚ)) (gset : List String) (p : Nat) : ℚ :=
  (resProfile ranking gset p).foldl
    (fun best x => if |best| < |x| then x else best) 0

/-- Modelled from the spec (§4.3, gene-set mode): the null ES of permutation
index `k` — sample a random gene subset of the matched size (a prefix of a
shuffle of the gene universe, seeded from `(seed, k)` alone) and score it
against the fixed ranking. -/
def nullES (ranking : List (String × ℚ)) (p matchedSize seed k : Nat) : ℚ :=
  esStat ranking
    ((shuffle (permState seed k) (ranking.map Prod.fst)).take matchedSize) p

/-- Modelled from the spec (§5): the permutation indices owned by worker `w`
of a pool of `t` (a round-robin partition of the index space). -/
def workerCells (t w nperm : Nat) : List Nat :=
  (List.range nperm).filter (fun k => k % t = w)

/-- Modelled from the spec (§4.3/§5): the null score table as the worker
pool produces it — each worker computes the disjoint cells it owns, and the
merge step reassembles the table in permutation-index order by looking each
index up among the workers' outputs. -/
def nullTablePar (t : Nat) (ranking : List (String × ℚ))
    (p matchedSize seed nperm : Nat) : List ℚ :=
  let cells := (List.range t).flatMap (fun w =>
    (workerCells t w nperm).map
      (fun k => (k, nullES ranking p matchedSize seed k)))
  (List.range nperm).map (fun k => ((cells.lookup k).getD 0))

/-- Modelled from the spec (§4.3): the result records of a
gene-set-permutation run — per surviving gene set its term, observed ES
(on the matched members), and null score table. -/
def runPipeline (t seed : Nat) (ranking : List (String × ℚ))
    (gsets : List (String × List String)) (p nperm : Nat) :
    List (String × ℚ × List ℚ) :=
  gsets.map (fun gs =>
    (gs.1, esStat ranking (gs.2.filter (fun x => x ∈ ranking.map Prod.fst)) p,
      nullTablePar t ranking p
        (gs.2.filter (fun x => x ∈ ranking.map Prod.fst)).length seed nperm))

theorem lookup_eq_of_forall {f : Nat → ℚ} (l : List (Nat × ℚ)) (k : Nat)
    (hall : ∀ q ∈ l, q.2 = f q.1) (hmem : ∃ q ∈ l, q.1 = k) :
    l.lookup k = some (f k) := by
  induction l with
  | nil => simp at hmem
  | cons a tl ih =>
    rcases hmem with ⟨q, hq, hk⟩
    simp only [List.lookup]
    by_cases h : k = a.1
    · simp [h, beq_iff_eq, ← hall a (by simp)]
    · have hb : (k == a.1) = false := by simp [h]
      rw [hb]
      apply ih
      · intro r hr
        exact hall r (List.mem_cons_of_mem _ hr)
      · rw [List.mem_cons] at hq
        rcases hq with hqa | hq
        · exact absurd (hqa ▸ hk).symm h
        · exact ⟨q, hq, hk⟩

/-- The merged parallel null table equals the serial one: which worker
computes a cell never changes the cell's value, because each cell is a pure
function of `(seed, k)`. -/
theorem nullTablePar_eq_serial (t : Nat) (ht : 0 < t)
    (ranking : List (String × ℚ)) (p m seed nperm : Nat) :
    nullTablePar t ranking p m seed nperm
      = (List.range nperm).map (fun k => nullES ranking p m seed k) := by
  simp only [nullTablePar]
  apply List.map_congr_left
  intro k hk
  rw [lookup_eq_of_forall (f := fun k => nullES ranking p m seed k) _ k ?_ ?_]
  · simp
  · intro q hq
    rw [List.mem_flatMap] at hq
    obtain ⟨w, _, hq2⟩ := hq
    obtain ⟨k2, _, rfl⟩ := List.mem_map.mp hq2
    rfl
  · refine ⟨(k, nullES ranking p m seed k), ?_, rfl⟩
    rw [List.mem_flatMap]
    refine ⟨k % t, ?_, ?_⟩
    · rw [List.mem_range]
      exact Nat.mod_lt _ ht
    · apply List.mem_map.mpr
      refine ⟨k, ?_, rfl⟩
      rw [workerCells, List.mem_filter]
      exact ⟨hk, by simp⟩

/-- C3 (spec-modelled): running the pipeline twice with the same
`(seed, thread_count)` yields identical result records, and running with
the same seed but a different (positive) thread count also yields identical
records: every null cell is a pure function of `(seed, k)` and the
worker-pool merge reassembles cells by permutation index, so the thread
partition never influences the output. -/
theorem runPipeline_thread_invariant (t1 t2 seed : Nat)
    (ranking : List (String × ℚ)) (gsets : List (String × List String))
    (p nperm : Nat) (h1 : 0 < t1) (h2 : 0 < t2) :
    runPipeline t1 seed ranking gsets p nperm
        = runPipeline t1 seed ranking gsets p nperm
    ∧ runPipeline t1 seed ranking gsets p nperm
        = runPipeline t2 seed ranking gsets p nperm := by
  refine ⟨rfl, ?_⟩
  rw [runPipeline, runPipeline]
  apply List.map_congr_left
  intro gs _
  rw [nullTablePar_eq_serial t1 h1, nullTablePar_eq_serial t2 h2]

/-- Witness for `runPipeline_thread_invariant`: a 3-gene ranking, one gene
set, 2 permutations, thread counts 1 and 3. -/
theorem runPipeline_thread_invariant_witness :
    runPipeline 1 123 [("a", 3), ("b", 2), ("c", 1)] [("S", ["a", "c"])] 1 2
        = runPipeline 1 123 [("a", 3), ("b", 2), ("c", 1)] [("S", ["a", "c"])] 1 2
    ∧ runPipeline 1 123 [("a", 3), ("b", 2), ("c", 1)] [("S", ["a", "c"])] 1 2
        = runPipeline 3 123 [("a", 3), ("b", 2), ("c", 1)] [("S", ["a", "c"])] 1 2 :=
  runPipeline_thread_invariant 1 3 123 [("a", 3), ("b", 2), ("c", 1)]
    [("S", ["a", "c"])] 1 2 (by decide) (by decide)

/-! ## Claim C8: constructor clamping of `permutation_num` -/

/-- gsea.py line 60 (`GSEA.__init__`):
`self.permutation_num = int(permutation_num) if int(permutation_num) > 0
else 0`. -/
def gseaInitPermutationNum (permutation_num : Int) : Int :=
  if permutation_num > 0 then permutation_num else 0

/-- gsea.py line 369 (`Prerank.__init__`): the identical clamp. -/
def prerankInitPermutationNum (permutation_num : Int) : Int :=
  if permutation_num > 0 then permutation_num else 0

/-- C8: both constructors store `max(permutation_num, 0)`: positive values
are kept, zero and negative values are silently clamped to `0`; no error is
raised for any integer input. -/
theorem init_permutation_num_clamps (pn : Int) :
    gseaInitPermutationNum pn = max pn 0
    ∧ prerankInitPermutationNum pn = max pn 0 := by
  refine ⟨?_, ?_⟩ <;>
    simp only [gseaInitPermutationNum, prerankInitPermutationNum] <;>
    split <;>
    omega

end GSEApy
